import Mathlib

set_option maxHeartbeats 1000000

/-!
Verification of the document-to-structured-text pipeline of the
LLM-Agent-Extraction-PLGANPs repository.

The Python sources `src/pdf_parser.py` and `src/xml_parser.py` are embedded
shallowly: Python strings are Lean `String`s (sequences of characters),
Python lists are Lean `List`s, Python `None`-or-value is `Option`, and the
`lxml` document tree is the inductive `XNode`.  Each definition below names
the source construct it embeds.
-/

/-! ### Python string primitives -/

/-- The ASCII whitespace characters recognized by Python `str.strip()`,
`str.split()` and the regex class `\s`. -/
def isPySpace (c : Char) : Bool :=
  c = ' ' || c = '\t' || c = '\n' || c = '\r' || c = '\x0b' || c = '\x0c'

/-- Python `str.strip()` on a character list. -/
def pyStripChars (l : List Char) : List Char :=
  ((l.dropWhile isPySpace).reverse.dropWhile isPySpace).reverse

/-- Python `str.strip()`. -/
def pyStrip (s : String) : String :=
  String.mk (pyStripChars s.data)

/-- Worker for `collapseWs`; the flag records whether the previous character
was whitespace (so the run only emits one space). -/
def collapseWsAux : List Char → Bool → List Char
  | [], _ => []
  | c :: cs, prev =>
    if isPySpace c then
      if prev then collapseWsAux cs true else ' ' :: collapseWsAux cs true
    else c :: collapseWsAux cs false

/-- Python `re.sub(r'\s+', ' ', s)`: every maximal whitespace run becomes a
single space. -/
def collapseWs (s : String) : String := String.mk (collapseWsAux s.data false)

/-- Python `sep.join(items)`. -/
def joinSep (sep : String) : List String → String
  | [] => ""
  | [x] => x
  | x :: y :: xs => x ++ sep ++ joinSep sep (y :: xs)

/-- Python `s.split(sep)` for a one-character separator (so `split` of the
empty string is `[""]` and a trailing separator yields a final `""`). -/
def splitOnChar (sep : Char) : List Char → List (List Char)
  | [] => [[]]
  | c :: cs =>
    if c = sep then [] :: splitOnChar sep cs
    else
      match splitOnChar sep cs with
      | [] => [[c]]
      | h :: t => (c :: h) :: t

/-- Python `s.replace('\r\n', '\n')` (left-to-right, non-overlapping). -/
def replCRLF : List Char → List Char
  | '\r' :: '\n' :: rest => '\n' :: replCRLF rest
  | c :: rest => c :: replCRLF rest
  | [] => []

/-- Python `s.lower()` (ASCII case folding). -/
def lowerStr (s : String) : String := String.mk (s.data.map Char.toLower)

/-- Worker for `wordsOf`: the accumulator holds the current word reversed. -/
def wordsOfAux : List Char → List Char → List (List Char)
  | [], acc => if acc.isEmpty then [] else [acc.reverse]
  | c :: cs, acc =>
    if isPySpace c then
      (if acc.isEmpty then [] else [acc.reverse]) ++ wordsOfAux cs []
    else wordsOfAux cs (c :: acc)

/-- The maximal whitespace-free words of a string, in order. -/
def wordsOf (s : String) : List String :=
  (wordsOfAux s.data []).map String.mk

/-! ### Paragraph segmenter: `split_text_into_paragraphs` (src/pdf_parser.py) -/

/-- `stripped_line[-1] in ['.', '?', '!']` — the line ends with a sentence
terminator. -/
def endsSentence (s : String) : Bool :=
  match s.data.getLast? with
  | some c => c = '.' || c = '?' || c = '!'
  | none => false

/-- `next_line and (next_line[0].isupper() or next_line[0].isdigit() or
next_line.lower().startswith(('fig.', 'table')))` from the segmenter's
lookahead rule. -/
def startsNewParagraphSignal (next : String) : Bool :=
  match next.data with
  | [] => false
  | c :: _ =>
    c.isUpper || c.isDigit
      || (lowerStr next).startsWith "fig." || (lowerStr next).startsWith "table"

/-- The line-grouping loop of `split_text_into_paragraphs`: the first argument
is `current_paragraph_lines` (already-stripped lines of the paragraph in
progress), the second is the remaining lines (so the head of the tail is the
`lines[i+1]` lookahead).  Returns the `paragraphs` accumulated from this
point on, including the final flush after the loop. -/
def segLoop : List String → List String → List String
  | cur, [] => if cur.isEmpty then [] else [joinSep " " cur]
  | cur, line :: rest =>
    let stripped := pyStrip line
    if stripped = "" then
      (if cur.isEmpty then [] else [joinSep " " cur]) ++ segLoop [] rest
    else
      let cur2 := cur ++ [stripped]
      match rest with
      | [] => if cur2.isEmpty then [] else [joinSep " " cur2]
      | nl :: _ =>
        if endsSentence stripped && startsNewParagraphSignal (pyStrip nl) then
          joinSep " " cur2 :: segLoop [] rest
        else
          segLoop cur2 rest

/-- Python `re.fullmatch(r'\d+', p)` succeeds: `p` is one or more digits. -/
def allDigits (s : String) : Bool :=
  !s.data.isEmpty && s.data.all Char.isDigit

/-- Embedding of `split_text_into_paragraphs` (src/pdf_parser.py).  The
argument models the Python parameter, which may be `None` (`Option.none`) or
a string; the guard `if not text` is true for both `None` and `""`. -/
def split_text_into_paragraphs (text : Option String) : List String :=
  match text with
  | Option.none => []
  | some t =>
    if t = "" then []
    else
      let lines := (splitOnChar '\n' (replCRLF t.data)).map String.mk
      let paragraphs := segLoop [] lines
      (paragraphs.filter (fun p => !(p.length < 10) && !allDigits p)).map
        (fun p => pyStrip (collapseWs p))

/-! ### Claims C2 and C10 (paragraph segmenter) -/

/-- C2 (counterexample): contrary to the claim, the segmenter applied to
`"Intro sentence here.\nNext Para starts.\n\nFinal paragraph text."` does
not yield the two paragraphs `"Intro sentence here. Next Para starts."` and
`"Final paragraph text."` — the sentence-lookahead rule already breaks after
the first line. -/
theorem C2_counterexample :
    split_text_into_paragraphs
        (some "Intro sentence here.\nNext Para starts.\n\nFinal paragraph text.")
      ≠ ["Intro sentence here. Next Para starts.", "Final paragraph text."] := by
  decide

/-- C2 (amended): the segmenter applied to
`"Intro sentence here.\nNext Para starts.\n\nFinal paragraph text."` yields
exactly three paragraphs: `"Intro sentence here."`, `"Next Para starts."`
and `"Final paragraph text."` (the first line ends with a sentence
terminator and the next line starts with an uppercase letter, so the
lookahead rule flushes there as well as at the blank line). -/
theorem C2_amended_three_paragraphs :
    split_text_into_paragraphs
        (some "Intro sentence here.\nNext Para starts.\n\nFinal paragraph text.")
      = ["Intro sentence here.", "Next Para starts.", "Final paragraph text."] := by
  decide

/-- C10: the paragraph segmenter applied to an empty input — the absent text
`None` or the empty string — returns the empty paragraph list. -/
theorem C10_empty_input_yields_no_paragraphs :
    split_text_into_paragraphs Option.none = []
      ∧ split_text_into_paragraphs (some "") = [] := by
  decide

/-! ### Ancillary filter: `_remove_references_from_paragraphs` (src/xml_parser.py) -/

/-- The `reference_section_patterns` list of `_remove_references_from_paragraphs`.
Each regex there is `^\s*W1\s+W2...\s*$` under `re.IGNORECASE`, where every
`Wi` is a literal word with at most an optional plural suffix; each regex is
recorded here as the sequence of allowed (lower-cased) variants of each
word. -/
def reference_section_patterns : List (List (List String)) :=
  [ [["reference", "references"]],
    [["bibliography"]],
    [["literature"], ["cited"]],
    [["acknowledgement", "acknowledgements"]],
    [["appendix", "appendixes"]],
    [["supporting"], ["information"]],
    [["supplementary"], ["material", "materials"]],
    [["note", "notes"], ["on"], ["contributor", "contributors"]],
    [["author"], ["contribution", "contributions"]],
    [["funding"]],
    [["conflict", "conflicts"], ["of"], ["interest"]],
    [["data"], ["availability"], ["statement"]],
    [["orcid"]] ]

/-- `re.fullmatch(pattern, p, re.IGNORECASE)` for one pattern of the shape
above: stripping the surrounding whitespace and splitting `p` at whitespace
runs must give exactly the pattern's words, case-insensitively and up to the
allowed plural variants. -/
def patternMatches (pat : List (List String)) (p : String) : Bool :=
  let ws := (wordsOf p).map lowerStr
  ws.length == pat.length && (ws.zip pat).all (fun wp => wp.2.contains wp.1)

/-- `any(re.fullmatch(pattern, p, re.IGNORECASE) for pattern in
reference_section_patterns)`. -/
def isAncillaryHeader (p : String) : Bool :=
  reference_section_patterns.any (fun pat => patternMatches pat p)

/-- The header-scanning loop of `_remove_references_from_paragraphs`; the
flag is `in_ancillary_section`. -/
def removeLoop (flag : Bool) : List String → List String
  | [] => []
  | p :: ps =>
    if isAncillaryHeader p then removeLoop true ps
    else if flag then removeLoop flag ps
    else p :: removeLoop flag ps

/-- Continuation of `numNoise` after the first digit: further digits, with at
most one final `'.'`. -/
def numNoiseRest : List Char → Bool
  | [] => true
  | c :: cs => if c = '.' then cs.isEmpty else c.isDigit && numNoiseRest cs

/-- Python `re.fullmatch(r'^\s*\d+\.?\s*$', p.strip())` succeeds: `p` is, up
to surrounding whitespace, one or more digits with an optional trailing
period. -/
def isNumNoise (p : String) : Bool :=
  match (pyStrip p).data with
  | [] => false
  | c :: cs => c.isDigit && numNoiseRest cs

/-- The final-cleanup predicate of `_remove_references_from_paragraphs`:
`len(p) > 20 and not re.fullmatch(r'^\s*\d+\.?\s*$', p.strip())`. -/
def cleanupKeep (p : String) : Bool :=
  decide (20 < p.length) && !isNumNoise p

/-- Embedding of `_remove_references_from_paragraphs` (src/xml_parser.py). -/
def _remove_references_from_paragraphs (paragraphs : List String) : List String :=
  if paragraphs.isEmpty then []
  else (removeLoop false paragraphs).filter cleanupKeep

/-! ### Claims C4, C5, C6 (ancillary filter) -/

/-- Once `in_ancillary_section` is set, every remaining paragraph is dropped. -/
theorem removeLoop_true_eq_nil (ps : List String) : removeLoop true ps = [] := by
  induction ps with
  | nil => rfl
  | cons p ps ih => simp [removeLoop, ih]

/-- Every paragraph kept by the scanning loop is not an ancillary header. -/
theorem not_header_of_mem_removeLoop_false {x : String} {ps : List String}
    (h : x ∈ removeLoop false ps) : isAncillaryHeader x = false := by
  induction ps with
  | nil => simp [removeLoop] at h
  | cons p ps ih =>
    by_cases hp : isAncillaryHeader p
    · rw [removeLoop, if_pos hp, removeLoop_true_eq_nil] at h
      simp at h
    · rw [removeLoop, if_neg hp, if_neg (by simp)] at h
      rcases List.mem_cons.mp h with rfl | hmem
      · exact eq_false_of_ne_true hp
      · exact ih hmem

/-- If no paragraph is an ancillary header, the scanning loop keeps all of
them. -/
theorem removeLoop_false_of_no_header {ps : List String}
    (h : ∀ x ∈ ps, isAncillaryHeader x = false) : removeLoop false ps = ps := by
  induction ps with
  | nil => rfl
  | cons p ps ih =>
    have hp : isAncillaryHeader p = false := h p (List.mem_cons_self p ps)
    rw [removeLoop, if_neg (by simp [hp]), if_neg (by simp)]
    exact congrArg (p :: ·) (ih fun x hx => h x (List.mem_cons_of_mem p hx))

/-- C4: the Ancillary Section Filter is idempotent — applying
`_remove_references_from_paragraphs` to its own output returns that output
unchanged. -/
theorem C4_filter_idempotent (ps : List String) :
    _remove_references_from_paragraphs (_remove_references_from_paragraphs ps)
      = _remove_references_from_paragraphs ps := by
  set out := _remove_references_from_paragraphs ps with hout
  have hmem : ∀ x ∈ out, isAncillaryHeader x = false := by
    intro x hx
    rw [hout, _remove_references_from_paragraphs] at hx
    split at hx
    · simp at hx
    · exact not_header_of_mem_removeLoop_false (List.mem_of_mem_filter hx)
  have hkeep : ∀ x ∈ out, cleanupKeep x = true := by
    intro x hx
    rw [hout, _remove_references_from_paragraphs] at hx
    split at hx
    · simp at hx
    · exact List.of_mem_filter hx
  rw [_remove_references_from_paragraphs]
  split
  · next hempty =>
    rw [List.isEmpty_iff] at hempty
    exact hempty.symm
  · rw [removeLoop_false_of_no_header hmem]
    exact List.filter_eq_self.mpr hkeep

/-- The scanning loop returns a subsequence of its input. -/
theorem removeLoop_sublist (flag : Bool) (ps : List String) :
    (removeLoop flag ps).Sublist ps := by
  induction ps generalizing flag with
  | nil => exact List.Sublist.refl []
  | cons p ps ih =>
    rw [removeLoop]
    split
    · exact (ih true).cons p
    · split
      · exact (ih flag).cons p
      · exact (ih flag).cons₂ p

/-- C5: the output of the Ancillary Section Filter is a subsequence of its
input — every kept paragraph appears in the input, in the input's relative
order, with nothing inserted or reordered. -/
theorem C5_filter_sublist (ps : List String) :
    (_remove_references_from_paragraphs ps).Sublist ps := by
  rw [_remove_references_from_paragraphs]
  split
  · exact List.nil_sublist ps
  · exact ((removeLoop false ps).filter_sublist).trans (removeLoop_sublist false ps)

/-- C6 (counterexample): contrary to the claim, a list with no recognized
ancillary header is not always returned unchanged — the final cleanup still
drops the 5-character paragraph `"short"`. -/
theorem C6_counterexample :
    isAncillaryHeader "short" = false
      ∧ _remove_references_from_paragraphs ["short"] = []
      ∧ _remove_references_from_paragraphs ["short"] ≠ ["short"] := by
  decide

/-- C6 (amended): if no paragraph matches a recognized ancillary-section
header pattern, no paragraph is removed by the header-scanning stage — the
output is exactly the input filtered by the final cleanup alone (length over
20 characters and not a bare number with optional trailing period). -/
theorem C6_amended_no_header_only_cleanup {ps : List String}
    (h : ∀ x ∈ ps, isAncillaryHeader x = false) :
    _remove_references_from_paragraphs ps = ps.filter cleanupKeep := by
  rw [_remove_references_from_paragraphs]
  split
  · next hempty =>
    rw [List.isEmpty_iff] at hempty
    simp [hempty]
  · rw [removeLoop_false_of_no_header h]

/-- C6 (witness): the amended statement at a concrete input with no
ancillary header, one long paragraph and one short one. -/
theorem C6_amended_witness :
    _remove_references_from_paragraphs
        ["This paragraph is easily long enough to keep.", "short"]
      = [ "This paragraph is easily long enough to keep.", "short"
        ].filter cleanupKeep :=
  C6_amended_no_header_only_cleanup (by decide)

/-! ### The document tree (`lxml` elements and text nodes) -/

mutual
inductive XNode where
  | text (s : String)
  | elem (tag : String) (attrs : List (String × String)) (children : XNodeList)
inductive XNodeList where
  | nil
  | cons (head : XNode) (tail : XNodeList)
end

/-- The text nodes among a child list, in order (`./text()`). -/
def directTexts : XNodeList → List String
  | .nil => []
  | .cons (.text s) rest => s :: directTexts rest
  | .cons (.elem _ _ _) rest => directTexts rest

/-- `lxml`'s `.text` attribute: the text before the first child element;
`None` when the element is empty or starts with a child element. -/
def elemText : XNode → Option String
  | .text _ => Option.none
  | .elem _ _ (.cons (.text s) _) => some s
  | .elem _ _ _ => Option.none

/-- `./@name` — the value of attribute `name` of an element, if present. -/
def elemAttr (name : String) : XNode → Option String
  | .text _ => Option.none
  | .elem _ attrs _ => (attrs.find? (fun kv => kv.1 == name)).map Prod.snd

/-- `//tag/text()` — text nodes whose parent element has tag `tag`, in
document order.  `pm` records whether the parent of the nodes currently
being visited has tag `tag`. -/
def tagTextsList (tag : String) (pm : Bool) : XNodeList → List String
  | .nil => []
  | .cons (.text s) rest => (if pm then [s] else []) ++ tagTextsList tag pm rest
  | .cons (.elem t _ ch) rest =>
    tagTextsList tag (t = tag) ch ++ tagTextsList tag pm rest

/-- `root.xpath('//tag/text()')`. -/
def tagTexts (tag : String) (root : XNode) : List String :=
  tagTextsList tag false (.cons root .nil)

/-- `//cont//p/text()`, optionally with `[not(ancestor::ref-list)]` (`excl`):
text nodes whose parent is a `p` element that is a proper descendant of a
`cont` element and — when `excl` is set — has no `ref-list` ancestor.
`pc`: the parent of the current nodes is such a collecting `p`;
`inCont`/`inRef`: some strict ancestor is a `cont`/`ref-list` element. -/
def contPTextsList (cont : String) (excl : Bool) (pc inCont inRef : Bool) :
    XNodeList → List String
  | .nil => []
  | .cons (.text s) rest =>
    (if pc then [s] else []) ++ contPTextsList cont excl pc inCont inRef rest
  | .cons (.elem t _ ch) rest =>
    contPTextsList cont excl
      (t = "p" && inCont && (!excl || !inRef))
      (inCont || t = cont) (inRef || t = "ref-list") ch
    ++ contPTextsList cont excl pc inCont inRef rest

/-- `root.xpath('//cont//p/text()')`, with the `ref-list` exclusion when
`excl` is set. -/
def contPTexts (cont : String) (excl : Bool) (root : XNode) : List String :=
  contPTextsList cont excl false false false (.cons root .nil)

/-- `//kwd-group/kwd/text()`: text nodes whose parent is a `kwd` element that
is itself a child of a `kwd-group` element.  `pk`: the parent of the current
nodes is such a `kwd`; `pg`: the parent is a `kwd-group`. -/
def kwdTextsList (pk pg : Bool) : XNodeList → List String
  | .nil => []
  | .cons (.text s) rest => (if pk then [s] else []) ++ kwdTextsList pk pg rest
  | .cons (.elem t _ ch) rest =>
    kwdTextsList (t = "kwd" && pg) (t = "kwd-group") ch ++ kwdTextsList pk pg rest

/-- `root.xpath('//kwd-group/kwd/text()')`. -/
def kwdTexts (root : XNode) : List String :=
  kwdTextsList false false (.cons root .nil)

/-- `//contrib[@contrib-type="author"]/name`: `name` elements whose parent is
a `contrib` element carrying `contrib-type="author"`.  `pa`: the parent of
the current nodes is such a `contrib`. -/
def contribNameElemsList (pa : Bool) : XNodeList → List XNode
  | .nil => []
  | .cons (.text _) rest => contribNameElemsList pa rest
  | .cons (.elem t attrs ch) rest =>
    (if t = "name" && pa then [XNode.elem t attrs ch] else [])
      ++ contribNameElemsList
          (t = "contrib"
            && ((attrs.find? (fun kv => kv.1 == "contrib-type")).map Prod.snd
                  == some "author")) ch
      ++ contribNameElemsList pa rest

/-- `root.xpath('//contrib[@contrib-type="author"]/name')`. -/
def contribNameElems (root : XNode) : List XNode :=
  contribNameElemsList false (.cons root .nil)

/-- `//tag` — all elements with tag `tag`, in document (preorder) order. -/
def elemsByTagList (tag : String) : XNodeList → List XNode
  | .nil => []
  | .cons (.text _) rest => elemsByTagList tag rest
  | .cons (.elem t a ch) rest =>
    (if t = tag then [XNode.elem t a ch] else [])
      ++ elemsByTagList tag ch ++ elemsByTagList tag rest

/-- `root.xpath('//tag')`. -/
def elemsByTag (tag : String) (root : XNode) : List XNode :=
  elemsByTagList tag (.cons root .nil)

/-- Worker for `childTagTexts`: scan the direct children. -/
def childTagTextsList (tag : String) : XNodeList → List String
  | .nil => []
  | .cons (.text _) rest => childTagTextsList tag rest
  | .cons (.elem t _ gch) rest =>
    (if t = tag then directTexts gch else []) ++ childTagTextsList tag rest

/-- `./tag/text()` — text children of the direct `tag`-children of a node. -/
def childTagTexts (tag : String) : XNode → List String
  | .text _ => []
  | .elem _ _ ch => childTagTextsList tag ch

/-- Text nodes whose parent is a `p` element, anywhere below the given
child list; `pp`: the parent of the current nodes is a `p`. -/
def pTextsList (pp : Bool) : XNodeList → List String
  | .nil => []
  | .cons (.text s) rest => (if pp then [s] else []) ++ pTextsList pp rest
  | .cons (.elem t _ ch) rest => pTextsList (t = "p") ch ++ pTextsList pp rest

/-- Worker for `captionPTexts`: scan the direct children for `caption`. -/
def captionPTextsList : XNodeList → List String
  | .nil => []
  | .cons (.text _) rest => captionPTextsList rest
  | .cons (.elem t _ gch) rest =>
    (if t = "caption" then pTextsList false gch else []) ++ captionPTextsList rest

/-- `./caption//p/text()` from a `table-wrap` element. -/
def captionPTexts : XNode → List String
  | .text _ => []
  | .elem _ _ ch => captionPTextsList ch

/-- `.//ptag/tr` from an element: `tr` elements whose parent is a `ptag`
element in the subtree; `pm`: the parent of the current nodes is a `ptag`. -/
def trsList (ptag : String) (pm : Bool) : XNodeList → List XNode
  | .nil => []
  | .cons (.text _) rest => trsList ptag pm rest
  | .cons (.elem t a ch) rest =>
    (if t = "tr" && pm then [XNode.elem t a ch] else [])
      ++ trsList ptag (t = ptag) ch ++ trsList ptag pm rest

/-- `tw.xpath('.//ptag/tr')` (with `ptag` = `thead` or `tbody`). -/
def trsUnder (ptag : String) : XNode → List XNode
  | .text _ => []
  | .elem t _ ch => trsList ptag (t = ptag) ch

/-- `.//td/text() | .//th/text()` below a child list: text nodes whose parent
is a `td` or `th` element, in document order; `pc`: the parent of the
current nodes is a cell element. -/
def cellTextsList (pc : Bool) : XNodeList → List String
  | .nil => []
  | .cons (.text s) rest => (if pc then [s] else []) ++ cellTextsList pc rest
  | .cons (.elem t _ ch) rest =>
    cellTextsList (t = "td" || t = "th") ch ++ cellTextsList pc rest

/-- `row.xpath('.//td/text() | .//th/text()')` from a `tr` element. -/
def cellTexts : XNode → List String
  | .text _ => []
  | .elem t _ ch => cellTextsList (t = "td" || t = "th") ch

/-! ### Table serialization and the extracted record (src/xml_parser.py) -/

/-- Python `"-" * n`. -/
def dashes (n : Nat) : String := String.mk (List.replicate n '-')

/-- One serialized grid row: `"| " + " | ".join(row) + " |"` (the shape used
both for the header line and for each data-row line). -/
def rowLine (row : List String) : String := "| " ++ joinSep " | " row ++ " |"

/-- The separator line:
`"|-" + "-|-".join(["-" * len(col) for col in header]) + "-|"`. -/
def sepLine (header : List String) : String :=
  "|-" ++ joinSep "-|-" (header.map (fun col => dashes col.length)) ++ "-|"

/-- The data-row lines with their terminating newlines, as accumulated by
`for row in table_content_rows[1:]: markdown_table_text += ...`. -/
def bodyLinesText : List (List String) → String
  | [] => ""
  | r :: rs => rowLine r ++ "\n" ++ bodyLinesText rs

/-- The `markdown_table_text` built from the collected `table_content_rows`:
a newline-terminated header line, separator line, and one line per further
row (empty when no rows at all were collected). -/
def markdownTableText (rows : List (List String)) : String :=
  match rows with
  | [] => ""
  | r0 :: rest => rowLine r0 ++ "\n" ++ sepLine r0 ++ "\n" ++ bodyLinesText rest

/-- One entry of `extracted_data['tables_data']`. -/
structure TableData where
  id : String
  caption : String
  data_rows : List (List String)
  text_representation : String
  deriving DecidableEq

/-- The per-`table-wrap` body of the table loop in `extract_from_xml`:
header-row cells then body-row cells are collected (each cell stripped) into
`table_content_rows`; a `table-wrap` with no collected rows contributes
nothing, otherwise the id (`'N/A'` when absent), the stripped joined caption
(`''` when absent) and the serialized text form are recorded. -/
def buildTable (tw : XNode) : Option TableData :=
  let table_id := (elemAttr "id" tw).getD "N/A"
  let capTexts := captionPTexts tw
  let table_caption := if capTexts.isEmpty then "" else pyStrip (joinSep " " capTexts)
  let headerRows := (trsUnder "thead" tw).map (fun r => (cellTexts r).map pyStrip)
  let bodyRows := (trsUnder "tbody" tw).map (fun r => (cellTexts r).map pyStrip)
  let rows := headerRows ++ bodyRows
  if rows.isEmpty then Option.none
  else some ⟨table_id, table_caption, rows, markdownTableText rows⟩

/-- The `tables_data` accumulation of `extract_from_xml` over
`//table-wrap`. -/
def tablesOf (root : XNode) : List TableData :=
  (elemsByTag "table-wrap" root).filterMap buildTable

/-- One iteration of the author loop in `extract_from_xml`: prefer
`"GivenNames Surname"` when both `./surname/text()` and
`./given-names/text()` are non-empty; otherwise fall back to the element's
own text when that is truthy; otherwise contribute nothing. -/
def authorEntry (a : XNode) : Option String :=
  match childTagTexts "surname" a, childTagTexts "given-names" a with
  | sn :: _, gn :: _ => some (pyStrip gn ++ " " ++ pyStrip sn)
  | _, _ =>
    match elemText a with
    | some t => if t = "" then Option.none else some (pyStrip t)
    | Option.none => Option.none

/-- The `authors` accumulation of `extract_from_xml`, including the fallback
from `//contrib[@contrib-type="author"]/name` to `//author`. -/
def authorsOf (root : XNode) : List String :=
  let elems := contribNameElems root
  let elems := if elems.isEmpty then elemsByTag "author" root else elems
  elems.filterMap authorEntry

/-- The title extraction of `extract_from_xml`: `//article-title/text()`
falling back to `//title/text()`, the first hit stripped. -/
def titleOf (root : XNode) : Option String :=
  let ts := tagTexts "article-title" root
  let ts := if ts.isEmpty then tagTexts "title" root else ts
  match ts with
  | [] => Option.none
  | t :: _ => some (pyStrip t)

/-- The abstract extraction of `extract_from_xml`: `//abstract//p/text()`
falling back to `//abstract/text()`; when any hit exists, the non-blank hits
are whitespace-collapsed, stripped and joined with single spaces. -/
def abstractOf (root : XNode) : Option String :=
  let els := contPTexts "abstract" false root
  let els := if els.isEmpty then tagTexts "abstract" root else els
  if els.isEmpty then Option.none
  else some (joinSep " "
    ((els.filter (fun a => pyStrip a != "")).map (fun a => pyStrip (collapseWs a))))

/-- The keyword extraction of `extract_from_xml`:
`[k.strip() for k in //kwd-group/kwd/text()]` when non-empty. -/
def keywordsOf (root : XNode) : List String :=
  let ks := kwdTexts root
  if ks.isEmpty then [] else ks.map pyStrip

/-- The body-paragraph extraction of `extract_from_xml`:
`//body//p[not(ancestor::ref-list)]/text()` falling back to
`//body//p/text()`, the non-blank hits whitespace-collapsed and stripped,
then passed through `_remove_references_from_paragraphs`. -/
def bodyParagraphsOf (root : XNode) : List String :=
  let raw := contPTexts "body" true root
  let raw := if raw.isEmpty then contPTexts "body" false root else raw
  _remove_references_from_paragraphs
    ((raw.filter (fun p => pyStrip p != "")).map (fun p => pyStrip (collapseWs p)))

/-- A value stored in the `extracted_data` dictionary. -/
inductive PyVal where
  | noneV
  | strV (s : String)
  | listV (l : List String)
  | tablesV (l : List TableData)
  deriving DecidableEq

/-- Python dict assignment `d[k] = v`: replaces in place when the key
exists, appends otherwise (insertion order preserved). -/
def dictSet (d : List (String × PyVal)) (k : String) (v : PyVal) :
    List (String × PyVal) :=
  if d.any (fun kv => kv.1 == k) then
    d.map (fun kv => if kv.1 == k then (k, v) else kv)
  else d ++ [(k, v)]

/-- The initial `extracted_data` dictionary literal of `extract_from_xml`
(src/xml_parser.py lines 88-96), in insertion order. -/
def initialExtractedData (xml_file_path : String) : List (String × PyVal) :=
  [ ("file_path", PyVal.strV xml_file_path),
    ("title", PyVal.noneV),
    ("authors", PyVal.listV []),
    ("abstract", PyVal.noneV),
    ("keywords", PyVal.listV []),
    ("body_paragraphs", PyVal.listV []),
    ("tables_data", PyVal.tablesV []) ]

/-- The keys of the `extracted_data` dictionary, in insertion order. -/
def extractedDataKeys : List String :=
  ["file_path", "title", "authors", "abstract", "keywords",
   "body_paragraphs", "tables_data"]

/-- The `try`-body of `extract_from_xml` on a successfully parsed tree: the
sequence of dictionary updates, with appending into a list-valued entry
written as assigning the fully accumulated list (and the guarded
assignments to `title` and `abstract` skipped exactly when the extraction
found nothing). -/
def extractBody (root : XNode) (xml_file_path : String) : List (String × PyVal) :=
  let d := initialExtractedData xml_file_path
  let d := match titleOf root with
    | some t => dictSet d "title" (PyVal.strV t)
    | Option.none => d
  let d := dictSet d "authors" (PyVal.listV (authorsOf root))
  let d := match abstractOf root with
    | some a => dictSet d "abstract" (PyVal.strV a)
    | Option.none => d
  let d := dictSet d "keywords" (PyVal.listV (keywordsOf root))
  let d := dictSet d "body_paragraphs" (PyVal.listV (bodyParagraphsOf root))
  dictSet d "tables_data" (PyVal.tablesV (tablesOf root))

/-- Embedding of `extract_from_xml` (src/xml_parser.py).  `etree.parse`
either yields a tree or fails; the `Option XNode` argument models that
parse outcome, and a parse failure is caught and turned into the `None`
result.  The extraction body itself is a total function of the tree, so it
is the only other exception source the `except` clauses could catch. -/
def extract_from_xml (parsed : Option XNode) (xml_file_path : String) :
    Option (List (String × PyVal)) :=
  match parsed with
  | Option.none => Option.none
  | some root => some (extractBody root xml_file_path)

/-! ### Claims C3 and C1 (shape of the extracted record) -/

/-- Assigning to an existing key leaves the dictionary's key sequence
unchanged. -/
theorem dictSet_keys_of_mem {d : List (String × PyVal)} {k : String} (v : PyVal)
    (h : k ∈ d.map Prod.fst) : (dictSet d k v).map Prod.fst = d.map Prod.fst := by
  have hany : d.any (fun kv => kv.1 == k) = true := by
    rw [List.any_eq_true]
    rcases List.mem_map.mp h with ⟨kv, hkv, rfl⟩
    exact ⟨kv, hkv, beq_self_eq_true _⟩
  rw [dictSet, if_pos hany, List.map_map]
  apply List.map_congr_left
  intro kv _
  by_cases hk : kv.1 = k
  · simp [hk]
  · simp [hk]

/-- The record built by the extraction body always carries exactly the seven
keys of the initial dictionary, in order. -/
theorem extractBody_keys (root : XNode) (path : String) :
    (extractBody root path).map Prod.fst = extractedDataKeys := by
  have step : ∀ (d : List (String × PyVal)) (k : String) (v : PyVal),
      d.map Prod.fst = extractedDataKeys → k ∈ extractedDataKeys →
      (dictSet d k v).map Prod.fst = extractedDataKeys := by
    intro d k v hd hk
    rw [dictSet_keys_of_mem v (by rw [hd]; exact hk), hd]
  simp only [extractBody]
  cases titleOf root <;> cases abstractOf root <;>
    repeat
      first
      | rfl
      | refine step _ _ _ ?_ (by decide)

/-- C3: the Structural Document Extractor either fully fails or fully
succeeds.  A parse failure yields `None`, and every successful result is a
record carrying exactly the fields `file_path`, `title`, `authors`,
`abstract`, `keywords`, `body_paragraphs` and `tables_data` — never a
partially populated record.  (The raised-and-caught parse error is modelled
by the `Option` parse outcome; the extraction body is a total function, so
no other exception path exists in the embedding.) -/
theorem C3_all_or_nothing (parsed : Option XNode) (path : String) :
    extract_from_xml Option.none path = Option.none
    ∧ (extract_from_xml parsed path = Option.none
        ∨ ∃ d, extract_from_xml parsed path = some d
            ∧ d.map Prod.fst = extractedDataKeys) := by
  refine ⟨rfl, ?_⟩
  cases parsed with
  | none => exact Or.inl rfl
  | some root => exact Or.inr ⟨extractBody root path, rfl, extractBody_keys root path⟩

/-- A small well-formed article tree with one titled section and one body
paragraph, used as a concrete extraction input. -/
def sampleDoc : XNode :=
  .elem "article" [] (.cons
    (.elem "body" [] (.cons
      (.elem "sec" [] (.cons
        (.elem "title" [] (.cons (.text "1. Introduction") .nil))
        (.cons
          (.elem "p" [] (.cons
            (.text "Nanoparticles are a versatile drug delivery platform.")
            .nil))
          .nil)))
      .nil))
    .nil)

/-- C1 (counterexample): the sample tree with a titled section extracts
successfully, yet the returned record carries no `sections` field — its
keys are exactly the seven of `extracted_data`. -/
theorem C1_counterexample :
    (extract_from_xml (some sampleDoc) "sample.xml").map (fun d => d.map Prod.fst)
        = some extractedDataKeys
    ∧ "sections" ∉ extractedDataKeys := by
  decide

/-- C1 (amended): every successfully extracted record contains no `sections`
field at all — its fields are exactly `file_path`, `title`, `authors`,
`abstract`, `keywords`, `body_paragraphs` and `tables_data`, so paragraph
content is carried only by the flat, ancillary-filtered `body_paragraphs`
entry rather than by per-section records. -/
theorem C1_amended_no_sections_field (parsed : Option XNode) (path : String)
    (d : List (String × PyVal)) (h : extract_from_xml parsed path = some d) :
    d.map Prod.fst = extractedDataKeys ∧ "sections" ∉ d.map Prod.fst := by
  cases parsed with
  | none => exact absurd h (by simp [extract_from_xml])
  | some root =>
    have hd : d = extractBody root path := by
      have := h
      rw [extract_from_xml] at this
      exact (Option.some_inj.mp this).symm
    rw [hd, extractBody_keys]
    exact ⟨rfl, by decide⟩

/-- C1 (witness): the amended statement at the concrete sample tree. -/
theorem C1_amended_witness :
    (extractBody sampleDoc "sample.xml").map Prod.fst = extractedDataKeys
    ∧ "sections" ∉ (extractBody sampleDoc "sample.xml").map Prod.fst :=
  C1_amended_no_sections_field (some sampleDoc) "sample.xml"
    (extractBody sampleDoc "sample.xml") rfl

/-! ### Claim C9 (author elements without usable data are skipped) -/

/-- C9: an author element lacking the surname/given-names pair and whose own
text is absent or empty contributes no entry at all — `authorEntry` yields
nothing for it, and the authors collected from any element sequence
containing it are exactly those collected without it, so the authors list
can be shorter than the number of author elements. -/
theorem C9_author_without_data_skipped (a : XNode) (pre post : List XNode)
    (hsub : childTagTexts "surname" a = [] ∨ childTagTexts "given-names" a = [])
    (htext : elemText a = Option.none ∨ elemText a = some "") :
    authorEntry a = Option.none
    ∧ (pre ++ a :: post).filterMap authorEntry
        = (pre ++ post).filterMap authorEntry := by
  have hnone : authorEntry a = Option.none := by
    cases hsn : childTagTexts "surname" a with
    | nil =>
      rcases htext with h | h <;> simp [authorEntry, hsn, h]
    | cons s ss =>
      cases hgn : childTagTexts "given-names" a with
      | nil => rcases htext with h | h <;> simp [authorEntry, hsn, hgn, h]
      | cons g gs =>
        exfalso
        rcases hsub with h | h
        · rw [hsn] at h; exact List.noConfusion h
        · rw [hgn] at h; exact List.noConfusion h
  refine ⟨hnone, ?_⟩
  simp [List.filterMap_append, List.filterMap_cons, hnone]

/-- C9 (witness): a bare `<author/>` element between two text-only author
elements is skipped, leaving the entries of the other two. -/
theorem C9_witness :
    authorEntry (XNode.elem "author" [] XNodeList.nil) = Option.none
    ∧ ([XNode.elem "author" []
          (XNodeList.cons (XNode.text "Ann Author") XNodeList.nil)]
        ++ XNode.elem "author" [] XNodeList.nil
          :: [XNode.elem "author" []
                (XNodeList.cons (XNode.text "Bob Builder") XNodeList.nil)]
       ).filterMap authorEntry
      = ([XNode.elem "author" []
            (XNodeList.cons (XNode.text "Ann Author") XNodeList.nil)]
          ++ [XNode.elem "author" []
                (XNodeList.cons (XNode.text "Bob Builder") XNodeList.nil)]
         ).filterMap authorEntry :=
  C9_author_without_data_skipped _ _ _ (Or.inl rfl) (Or.inl rfl)

/-! ### Claim C7 (separator-line dash runs) -/

/-- Worker for `dashRuns`: `n` is the length of the dash run currently in
progress. -/
def dashRunsAux : Nat → List Char → List Nat
  | n, [] => if n = 0 then [] else [n]
  | n, c :: cs =>
    if c = '-' then dashRunsAux (n + 1) cs
    else if n = 0 then dashRunsAux 0 cs else n :: dashRunsAux 0 cs

/-- The lengths of the maximal runs of `'-'` in a string, in order. -/
def dashRuns (s : String) : List Nat := dashRunsAux 0 s.data

/-- A block of `m` dashes extends the current run by `m`. -/
theorem dashRunsAux_replicate (m : Nat) (n : Nat) (t : List Char) :
    dashRunsAux n (List.replicate m '-' ++ t) = dashRunsAux (n + m) t := by
  induction m generalizing n with
  | zero => rfl
  | succ m ih =>
    rw [List.replicate_succ, List.cons_append, dashRunsAux, if_pos rfl, ih]
    ring_nf

/-- A pipe closes the current run. -/
theorem dashRunsAux_pipe (n : Nat) (t : List Char) :
    dashRunsAux n ('|' :: t)
      = if n = 0 then dashRunsAux 0 t else n :: dashRunsAux 0 t := by
  rw [dashRunsAux, if_neg (by decide)]

/-- The dash runs of the joined column blocks followed by the closing
`"-|"`, entered with one pending dash from the left delimiter: one run of
`length + 2` per column. -/
theorem dashRunsAux_cols (c : String) (cs : List String) :
    dashRunsAux 1
        ((joinSep "-|-" ((c :: cs).map (fun col => dashes col.length))).data
          ++ ['-', '|'])
      = (c.length + 2) :: cs.map (fun col => col.length + 2) := by
  induction cs generalizing c with
  | nil =>
    show dashRunsAux 1 ((dashes c.length).data ++ ['-', '|']) = [c.length + 2]
    rw [show (dashes c.length).data = List.replicate c.length '-' from rfl,
      dashRunsAux_replicate, dashRunsAux, if_pos rfl, dashRunsAux_pipe,
      if_neg (by omega)]
    show [1 + c.length + 1] = [c.length + 2]
    have h2 : 1 + c.length + 1 = c.length + 2 := by omega
    rw [h2]
  | cons c' cs' ih =>
    show dashRunsAux 1
        ((dashes c.length ++ "-|-"
            ++ joinSep "-|-" ((c' :: cs').map (fun col => dashes col.length))).data
          ++ ['-', '|']) = _
    rw [String.data_append, String.data_append,
      show ("-|-").data = ['-', '|', '-'] from rfl,
      show (dashes c.length).data = List.replicate c.length '-' from rfl]
    rw [List.append_assoc, List.append_assoc, dashRunsAux_replicate]
    rw [show (['-', '|', '-'] ++
          ((joinSep "-|-" ((c' :: cs').map (fun col => dashes col.length))).data
            ++ ['-', '|']))
        = '-' :: '|' :: '-'
            :: ((joinSep "-|-" ((c' :: cs').map (fun col => dashes col.length))).data
              ++ ['-', '|']) from rfl]
    rw [dashRunsAux, if_pos rfl, dashRunsAux_pipe, if_neg (by omega)]
    rw [show dashRunsAux 0 ('-'
          :: ((joinSep "-|-" ((c' :: cs').map (fun col => dashes col.length))).data
            ++ ['-', '|']))
        = dashRunsAux 1
            ((joinSep "-|-" ((c' :: cs').map (fun col => dashes col.length))).data
              ++ ['-', '|']) from by rw [dashRunsAux, if_pos rfl]]
    rw [ih c']
    congr 1
    omega

/-- The dash runs of the whole separator line: one per header column, of
length exactly that column's header-cell length plus 2. -/
theorem dashRuns_sepLine (hdr : List String) (h : hdr ≠ []) :
    dashRuns (sepLine hdr) = hdr.map (fun col => col.length + 2) := by
  cases hdr with
  | nil => exact absurd rfl h
  | cons c cs =>
    rw [dashRuns, sepLine]
    rw [String.data_append, String.data_append,
      show ("|-").data = ['|', '-'] from rfl,
      show ("-|").data = ['-', '|'] from rfl]
    rw [List.append_assoc,
      show ['|', '-']
          ++ ((joinSep "-|-" ((c :: cs).map (fun col => dashes col.length))).data
            ++ ['-', '|'])
        = '|' :: '-'
            :: ((joinSep "-|-" ((c :: cs).map (fun col => dashes col.length))).data
              ++ ['-', '|']) from rfl]
    rw [dashRunsAux_pipe, if_pos rfl,
      show dashRunsAux 0 ('-'
          :: ((joinSep "-|-" ((c :: cs).map (fun col => dashes col.length))).data
            ++ ['-', '|']))
        = dashRunsAux 1
            ((joinSep "-|-" ((c :: cs).map (fun col => dashes col.length))).data
              ++ ['-', '|']) from by rw [dashRunsAux, if_pos rfl]]
    rw [dashRunsAux_cols]
    rfl

/-- A `table-wrap` whose single header cell strips to the empty string. -/
def emptyHeaderTable : XNode :=
  .elem "table-wrap" [] (.cons
    (.elem "table" [] (.cons
      (.elem "thead" [] (.cons
        (.elem "tr" [] (.cons
          (.elem "th" [] (.cons (.text " ") .nil)) .nil))
        .nil))
      .nil))
    .nil)

/-- C7 (counterexample): the table above is serialized, its separator line is
`"|--|"`, and the dash run for its (empty) header cell has length 2 — less
than the claimed minimum `max 3 (cell length) = 3`. -/
theorem C7_counterexample :
    (buildTable emptyHeaderTable).map (fun t => t.text_representation)
        = some "|  |\n|--|\n"
    ∧ (splitOnChar '\n' ("|  |\n|--|\n").data).map String.mk
        = ["|  |", "|--|", ""]
    ∧ dashRuns "|--|" = [2]
    ∧ ¬ (max 3 (String.length "") ≤ 2) := by
  decide

/-- C7 (amended): the per-column dash run of the separator line has length
exactly that header cell's length plus 2; in particular it is at least
`max 3 (cell length)` whenever the cell is non-empty (an empty header cell
yields a run of only 2 dashes). -/
theorem C7_amended_dash_run_lengths (hdr : List String) (i : Nat)
    (hi : i < hdr.length) :
    (dashRuns (sepLine hdr)).get? i = some ((hdr.get ⟨i, hi⟩).length + 2)
    ∧ (1 ≤ (hdr.get ⟨i, hi⟩).length →
        max 3 (hdr.get ⟨i, hi⟩).length ≤ (hdr.get ⟨i, hi⟩).length + 2) := by
  constructor
  · rw [dashRuns_sepLine hdr (by intro hnil; rw [hnil] at hi; simp at hi)]
    rw [List.get?_map, List.get?_eq_get hi]
    rfl
  · intro hL
    exact max_le (by omega) (by omega)

/-- C7 (witness): the amended statement at the concrete header row
`["Property", "Value", "Unit"]`, first column. -/
theorem C7_amended_witness :
    (dashRuns (sepLine ["Property", "Value", "Unit"])).get? 0
        = some (((["Property", "Value", "Unit"] : List String).get
            ⟨0, by decide⟩).length + 2)
    ∧ (1 ≤ ((["Property", "Value", "Unit"] : List String).get
            ⟨0, by decide⟩).length →
        max 3 ((["Property", "Value", "Unit"] : List String).get
            ⟨0, by decide⟩).length
          ≤ ((["Property", "Value", "Unit"] : List String).get
              ⟨0, by decide⟩).length + 2) :=
  C7_amended_dash_run_lengths ["Property", "Value", "Unit"] 0 (by decide)

/-! ### Claim C8 (table serialization round trip) -/

/-- `needle` occurs contiguously (verbatim) inside `hay`. -/
def occursIn (needle hay : List Char) : Prop :=
  ∃ pre suf, hay = pre ++ needle ++ suf

/-- Any character of a joined string comes from the separator or from one of
the joined pieces. -/
theorem mem_data_joinSep {c : Char} {sep : String} {l : List String}
    (h : c ∈ (joinSep sep l).data) :
    c ∈ sep.data ∨ ∃ x ∈ l, c ∈ x.data := by
  induction l with
  | nil =>
    rw [show (joinSep sep ([] : List String)).data = [] from rfl] at h
    exact absurd h (List.not_mem_nil c)
  | cons x xs ih =>
    cases xs with
    | nil => exact Or.inr ⟨x, List.mem_cons_self _ _, h⟩
    | cons y ys =>
      simp only [joinSep, String.data_append] at h
      rcases List.mem_append.mp h with h1 | h2
      · rcases List.mem_append.mp h1 with hx | hs
        · exact Or.inr ⟨x, List.mem_cons_self _ _, hx⟩
        · exact Or.inl hs
      · rcases ih h2 with hs | ⟨z, hz, hc⟩
        · exact Or.inl hs
        · exact Or.inr ⟨z, List.mem_cons_of_mem _ hz, hc⟩

/-- A row line contains no newline when none of its cells does. -/
theorem nl_not_mem_rowLine {r : List String}
    (h : ∀ cell ∈ r, '\n' ∉ cell.data) : '\n' ∉ (rowLine r).data := by
  intro hmem
  rw [rowLine, String.data_append, String.data_append] at hmem
  rcases List.mem_append.mp hmem with h1 | h2
  · rcases List.mem_append.mp h1 with ha | hb
    · exact absurd ha (by decide)
    · rcases mem_data_joinSep hb with hs | ⟨x, hx, hc⟩
      · exact absurd hs (by decide)
      · exact h x hx hc
  · exact absurd h2 (by decide)

/-- The separator line never contains a newline. -/
theorem nl_not_mem_sepLine (hdr : List String) : '\n' ∉ (sepLine hdr).data := by
  intro hmem
  rw [sepLine, String.data_append, String.data_append] at hmem
  rcases List.mem_append.mp hmem with h1 | h2
  · rcases List.mem_append.mp h1 with ha | hb
    · exact absurd ha (by decide)
    · rcases mem_data_joinSep hb with hs | ⟨x, hx, hc⟩
      · exact absurd hs (by decide)
      · rcases List.mem_map.mp hx with ⟨col, _, rfl⟩
        rw [show (dashes col.length).data = List.replicate col.length '-' from rfl]
          at hc
        exact absurd (List.eq_of_mem_replicate hc) (by decide)
  · exact absurd h2 (by decide)

/-- Splitting at a separator occurrence after a separator-free block peels
off that block. -/
theorem splitOnChar_append_cons (sep : Char) (a t : List Char) (ha : sep ∉ a) :
    splitOnChar sep (a ++ sep :: t) = a :: splitOnChar sep t := by
  induction a with
  | nil => simp [splitOnChar]
  | cons c cs ih =>
    have hc : ¬ (c = sep) := by
      intro h
      exact ha (by rw [h]; exact List.mem_cons_self _ _)
    have ih' := ih (fun h => ha (List.mem_cons_of_mem _ h))
    rw [List.cons_append, splitOnChar, if_neg hc, ih']

/-- Splitting the accumulated body lines gives one piece per row plus the
final empty piece after the trailing newline. -/
theorem splitOnChar_bodyLines (body : List (List String))
    (h : ∀ r ∈ body, '\n' ∉ (rowLine r).data) :
    splitOnChar '\n' (bodyLinesText body).data
      = body.map (fun r => (rowLine r).data) ++ [[]] := by
  induction body with
  | nil => rfl
  | cons r rs ih =>
    rw [show bodyLinesText (r :: rs) = rowLine r ++ "\n" ++ bodyLinesText rs
        from rfl]
    rw [String.data_append, String.data_append,
      show ("\n").data = ['\n'] from rfl, List.append_assoc]
    rw [show ['\n'] ++ (bodyLinesText rs).data = '\n' :: (bodyLinesText rs).data
        from rfl]
    rw [splitOnChar_append_cons '\n' _ _ (h r (List.mem_cons_self _ _)),
      ih (fun x hx => h x (List.mem_cons_of_mem _ hx))]
    rfl

/-- Every joined piece occurs verbatim in the joined string. -/
theorem occursIn_joinSep {x : String} {sep : String} {l : List String}
    (h : x ∈ l) : occursIn x.data (joinSep sep l).data := by
  induction l with
  | nil => exact absurd h (List.not_mem_nil x)
  | cons y ys ih =>
    rcases List.mem_cons.mp h with rfl | hmem
    · cases ys with
      | nil => exact ⟨[], [], by simp [joinSep]⟩
      | cons z zs =>
        refine ⟨[], (sep ++ joinSep sep (z :: zs)).data, ?_⟩
        simp only [joinSep, String.data_append, List.nil_append, List.append_assoc]
    · cases ys with
      | nil => exact absurd hmem (List.not_mem_nil x)
      | cons z zs =>
        rcases ih hmem with ⟨p, s, hps⟩
        refine ⟨y.data ++ sep.data ++ p, s, ?_⟩
        simp only [joinSep, String.data_append, hps, List.append_assoc]

/-- Every cell occurs verbatim in its own row's line. -/
theorem cell_occursIn_rowLine {cell : String} {r : List String} (h : cell ∈ r) :
    occursIn cell.data (rowLine r).data := by
  rcases @occursIn_joinSep cell " | " r h with ⟨p, s, hps⟩
  refine ⟨("| ").data ++ p, s ++ (" |").data, ?_⟩
  rw [rowLine, String.data_append, String.data_append, hps]
  simp only [List.append_assoc]

/-- A `table-wrap` with one header row and one body row whose cell text
contains a newline. -/
def newlineCellTable : XNode :=
  .elem "table-wrap" [] (.cons
    (.elem "table" [] (.cons
      (.elem "thead" [] (.cons
        (.elem "tr" [] (.cons
          (.elem "th" [] (.cons (.text "A") .nil)) .nil))
        .nil))
      (.cons
        (.elem "tbody" [] (.cons
          (.elem "tr" [] (.cons
            (.elem "td" [] (.cons (.text "b\nc") .nil)) .nil))
          .nil))
        .nil)))
    .nil)

/-- C8 (counterexample): the table above yields exactly one header row and
one body row, yet its serialized text has 4 newline-terminated lines
instead of the claimed 1 + 1 + 1 — the newline inside the body cell opens
an extra line, and that cell appears in no single line. -/
theorem C8_counterexample :
    (buildTable newlineCellTable).map (fun t => t.data_rows) = some [["A"], ["b\nc"]]
    ∧ (buildTable newlineCellTable).map (fun t => t.text_representation)
        = some "| A |\n|---|\n| b\nc |\n"
    ∧ (splitOnChar '\n' ("| A |\n|---|\n| b\nc |\n").data).map String.mk
        = ["| A |", "|---|", "| b", "c |", ""]
    ∧ ((splitOnChar '\n' ("| A |\n|---|\n| b\nc |\n").data).length - 1 : Nat)
        ≠ 1 + 1 + 1 := by
  decide

/-- C8 (amended): provided no cell contains a newline, the serialization of
one header row and N body rows splits at newlines into exactly the header
line, the separator line, and one line per body row (plus the empty piece
after the final newline) — so exactly 1 + 1 + N newline-terminated lines —
and every cell of every row occurs verbatim inside its own row's line. -/
theorem C8_amended_table_round_trip (hdr : List String) (body : List (List String))
    (hnl : ∀ r ∈ hdr :: body, ∀ cell ∈ r, '\n' ∉ cell.data) :
    splitOnChar '\n' (markdownTableText (hdr :: body)).data
      = (rowLine hdr).data :: (sepLine hdr).data
          :: (body.map (fun r => (rowLine r).data) ++ [[]])
    ∧ (splitOnChar '\n' (markdownTableText (hdr :: body)).data).length
        = 1 + 1 + body.length + 1
    ∧ (∀ cell ∈ hdr, occursIn cell.data (rowLine hdr).data)
    ∧ (∀ r ∈ body, ∀ cell ∈ r, occursIn cell.data (rowLine r).data) := by
  have hhdr : '\n' ∉ (rowLine hdr).data :=
    nl_not_mem_rowLine (fun cell hc => hnl hdr (List.mem_cons_self _ _) cell hc)
  have hsplit : splitOnChar '\n' (markdownTableText (hdr :: body)).data
      = (rowLine hdr).data :: (sepLine hdr).data
          :: (body.map (fun r => (rowLine r).data) ++ [[]]) := by
    rw [show markdownTableText (hdr :: body)
        = rowLine hdr ++ "\n" ++ sepLine hdr ++ "\n" ++ bodyLinesText body
        from rfl]
    rw [String.data_append, String.data_append, String.data_append,
      String.data_append, show ("\n").data = ['\n'] from rfl]
    simp only [List.append_assoc]
    rw [show ['\n'] ++ ((sepLine hdr).data
          ++ (['\n'] ++ (bodyLinesText body).data))
        = '\n' :: ((sepLine hdr).data ++ ('\n' :: (bodyLinesText body).data))
        from rfl]
    rw [splitOnChar_append_cons '\n' _ _ hhdr]
    rw [splitOnChar_append_cons '\n' _ _ (nl_not_mem_sepLine hdr)]
    rw [splitOnChar_bodyLines body
      (fun r hr => nl_not_mem_rowLine
        (fun cell hc => hnl r (List.mem_cons_of_mem _ hr) cell hc))]
  refine ⟨hsplit, ?_, ?_, ?_⟩
  · rw [hsplit]
    simp only [List.length_cons, List.length_append, List.length_map,
      List.length_nil]
    omega
  · exact fun cell hc => cell_occursIn_rowLine hc
  · exact fun r hr cell hc => cell_occursIn_rowLine hc

/-- C8 (witness): the amended statement at the concrete grid with header
`["Property", "Value", "Unit"]` and one body row `["Size", "180", "nm"]`. -/
theorem C8_amended_witness :
    splitOnChar '\n'
        (markdownTableText [["Property", "Value", "Unit"], ["Size", "180", "nm"]]).data
      = (rowLine ["Property", "Value", "Unit"]).data
          :: (sepLine ["Property", "Value", "Unit"]).data
          :: ([["Size", "180", "nm"]].map (fun r => (rowLine r).data) ++ [[]])
    ∧ (splitOnChar '\n'
        (markdownTableText [["Property", "Value", "Unit"], ["Size", "180", "nm"]]).data).length
        = 1 + 1 + ([["Size", "180", "nm"]] : List (List String)).length + 1
    ∧ (∀ cell ∈ ["Property", "Value", "Unit"],
        occursIn cell.data (rowLine ["Property", "Value", "Unit"]).data)
    ∧ (∀ r ∈ ([["Size", "180", "nm"]] : List (List String)), ∀ cell ∈ r,
        occursIn cell.data (rowLine r).data) :=
  C8_amended_table_round_trip ["Property", "Value", "Unit"] [["Size", "180", "nm"]]
    (by decide)
